import Mathlib

/-!
Verification of the Document Recovery & Conversion Pipeline of
`interactive_download.py` (PESU course downloader).

Strings and raw bytes are both modelled as `List Nat` of code points /
byte values: the code decodes binary content with latin-1, which is a
bijection between bytes and the first 256 code points, so a single
representation is faithful for both.  Filesystem reads that can fail are
modelled as `Option (List Nat)` (`none` = the read raised).  External
backends (COM automation, Aspose, LibreOffice, python-pptx) are modelled
as environment records of abstract functions, since their behaviour is
outside the program.
-/

/-- Code points of a string literal, used to write `List Nat` byte/char
lists readably. -/
def strL (s : String) : List Nat := s.data.map Char.toNat

/-- Model of Python `bytes.startswith` / `str.startswith` on code-point
lists. -/
def startsWithL : List Nat → List Nat → Bool
  | [], _ => true
  | _ :: _, [] => false
  | a :: as, b :: bs => a == b && startsWithL as bs

/-- Model of the Python substring test `pat in s`. -/
def containsSub (pat : List Nat) : List Nat → Bool
  | [] => startsWithL pat []
  | l@(_ :: rest) => startsWithL pat l || containsSub pat rest

/-- Model of Python `str.lower` on latin-1 code points (`A`-`Z` and the
latin-1 uppercase block `À`-`Þ` except `×` shift by 32; everything else
is fixed). -/
def pyLower (n : Nat) : Nat :=
  if (65 ≤ n ∧ n ≤ 90) ∨ (192 ≤ n ∧ n ≤ 222 ∧ n ≠ 215) then n + 32 else n

/-- ZIP local-file-header magic `PK\x03\x04`. -/
def zipMagic : List Nat := [80, 75, 3, 4]

/-- Compound-file-binary magic `\xd0\xcf\x11\xe0`. -/
def cfbMagic : List Nat := [208, 207, 17, 224]

/-- `PESUInteractiveDownloader.detect_file_type`: classify a file from
its leading bytes.  The argument is the file content; `none` means the
file could not be read (the `except` path of the source).  Returns the
detected extension, `none` for unknown. -/
def detect_file_type (file : Option (List Nat)) : Option (List Nat) :=
  match file with
  | none => none
  | some bytes =>
    let header := bytes.take 8
    if startsWithL zipMagic header then
      let content := bytes.take 512
      let lower := content.map pyLower
      if containsSub (strL "ppt/") content || containsSub (strL "slideshow") lower then
        some (strL ".pptx")
      else if containsSub (strL "word/") content || containsSub (strL "document") lower then
        some (strL ".docx")
      else if containsSub (strL "xl/") content || containsSub (strL "workbook") lower then
        some (strL ".xlsx")
      else
        some (strL ".pptx")
    else if startsWithL (strL "%PDF") header then some (strL ".pdf")
    else if startsWithL cfbMagic header then some (strL ".ppt")
    else none

/-- The classification exactly as claim C4 words it (refinement
comparison definition, written from the claim, to be diffed against
`detect_file_type`): a ZIP containing `ppt/` is a presentation, one
containing `word/` is word-processing, one containing `xl/` is a
spreadsheet, any other ZIP defaults to presentation; `%PDF` is PDF, the
compound-file magic is a legacy presentation, anything else unknown. -/
def detect_file_type_claim (file : Option (List Nat)) : Option (List Nat) :=
  match file with
  | none => none
  | some bytes =>
    let header := bytes.take 8
    if startsWithL zipMagic header then
      let content := bytes.take 512
      if containsSub (strL "ppt/") content then some (strL ".pptx")
      else if containsSub (strL "word/") content then some (strL ".docx")
      else if containsSub (strL "xl/") content then some (strL ".xlsx")
      else some (strL ".pptx")
    else if startsWithL (strL "%PDF") header then some (strL ".pdf")
    else if startsWithL cfbMagic header then some (strL ".ppt")
    else none

/-- A ZIP header followed by the marker `document` (and none of `ppt/`,
`word/`, `xl/`, `slideshow`, `workbook`). -/
def bytesC4 : List Nat := zipMagic ++ strL "document"

/-- Predicate: the first 512 bytes contain the raw marker `m`. -/
def hasMarker (m : List Nat) (bytes : List Nat) : Bool :=
  containsSub m (bytes.take 512)

/-- Predicate: the lowercased first 512 bytes contain the marker `m`. -/
def hasMarkerCI (m : List Nat) (bytes : List Nat) : Bool :=
  containsSub m ((bytes.take 512).map pyLower)

/-- Predicate: the 8-byte header starts with magic `m`. -/
def magicIs (m : List Nat) (bytes : List Nat) : Bool :=
  startsWithL m (bytes.take 8)

/-! ### Natural sort key (`natural_sort_key`)

`re.split` with a captured `(\d+)` pattern yields the alternating
non-digit/digit runs of the name, with (possibly empty) non-digit parts
at both ends.  `splitTxt`/`splitDig` model that split as a two-state
scanner; `keyOf` then models the per-part conversion of the source
(`int(part) if part.isdigit() else part.lower()`). -/
/-- ASCII digit test (the digit runs of the source's filenames are
ASCII). -/
def isDigitN (n : Nat) : Bool := decide (48 ≤ n ∧ n ≤ 57)

mutual

/-- Scanner state: inside a non-digit run, `acc` holds the reversed run
read so far. -/
def splitTxt (acc : List Nat) : List Nat → List (List Nat)
  | [] => [acc.reverse]
  | c :: cs =>
    if isDigitN c then acc.reverse :: splitDig [c] cs else splitTxt (c :: acc) cs

/-- Scanner state: inside a digit run. -/
def splitDig (acc : List Nat) : List Nat → List (List Nat)
  | [] => [acc.reverse, []]
  | c :: cs =>
    if isDigitN c then splitDig (c :: acc) cs else acc.reverse :: splitTxt [c] cs

end

/-- Model of `re.split(r'(\d+)', name)`. -/
def splitRuns (s : List Nat) : List (List Nat) := splitTxt [] s

/-- Numeric value of a digit run — model of Python `int(part)`. -/
def natVal (digs : List Nat) : Nat := digs.foldl (fun a d => 10 * a + (d - 48)) 0

/-- One element of the mixed sort key. -/
inductive KeyPart where
  | txt (s : List Nat)
  | num (n : Nat)
deriving DecidableEq

/-- Per-part conversion: digit runs become their numeric value,
other runs are lowercased. -/
def keyOf (part : List Nat) : KeyPart :=
  if part ≠ [] ∧ ∀ c ∈ part, isDigitN c = true then KeyPart.num (natVal part)
  else KeyPart.txt (part.map pyLower)

/-- `natural_sort_key`: the mixed tuple the merge stage sorts by. -/
def natural_sort_key (name : List Nat) : List KeyPart :=
  (splitRuns name).map keyOf

/-- Three-way comparison on `Nat`, the order Python uses on the numeric
parts. -/
def natCmp (m n : Nat) : Ordering :=
  if m < n then .lt else if m = n then .eq else .gt

/-- Lexicographic comparison of code-point lists — Python string
comparison. -/
def strCmp : List Nat → List Nat → Ordering
  | [], [] => .eq
  | [], _ :: _ => .lt
  | _ :: _, [] => .gt
  | a :: as, b :: bs =>
    match natCmp a b with
    | .eq => strCmp as bs
    | o => o

/-- Comparison of key elements.  Python raises `TypeError` when an
`int` meets a `str`; that is modelled as `none` (it is unreachable when
both keys come from `natural_sort_key`, whose parts alternate starting
with text). -/
def partCmp : KeyPart → KeyPart → Option Ordering
  | .txt s, .txt t => some (strCmp s t)
  | .num m, .num n => some (natCmp m n)
  | _, _ => none

/-- Element-wise tuple comparison of keys, Python list comparison. -/
def keyCmp : List KeyPart → List KeyPart → Option Ordering
  | [], [] => some .eq
  | [], _ :: _ => some .lt
  | _ :: _, [] => some .gt
  | a :: as, b :: bs =>
    match partCmp a b with
    | some .eq => keyCmp as bs
    | r => r

/-- Strict "less than" on names under the natural key. -/
def natLtB (a b : List Nat) : Bool :=
  decide (keyCmp (natural_sort_key a) (natural_sort_key b) = some Ordering.lt)

/-- Stable insertion used to model Python's stable ascending sort. -/
def insertBy (lt : α → α → Bool) (x : α) : List α → List α
  | [] => [x]
  | y :: ys => if lt x y then x :: y :: ys else y :: insertBy lt x ys

/-- Model of Python `sorted` (stable, ascending, comparisons by the
strict order `lt`). -/
def sortBy (lt : α → α → Bool) (l : List α) : List α :=
  l.foldl (fun acc x => insertBy lt x acc) []

/-! ### Merging one (unit, category) group (`merge_pdfs_by_type`, inner loop)

Pages are abstract (`Nat` ids).  A member PDF is `some pages` when it
can be opened for page extraction and `none` when `merger.append`
raises (the member is skipped with a warning).  The merged file is
written only when the accumulated page list is non-empty; otherwise the
code reports "No valid PDFs to merge" instead of raising. -/
structure MergeOutcome where
  /-- Pages of the written merged file; `none` = no file written. -/
  written : Option (List Nat)
  /-- Number of members skipped with a warning. -/
  skipped : Nat
deriving DecidableEq

/-- The per-group merge loop of `merge_pdfs_by_type`. -/
def mergeGroup (files : List (Option (List Nat))) : MergeOutcome :=
  let res := files.foldl
    (fun (st : List Nat × Nat) f =>
      match f with
      | some pages => (st.1 ++ pages, st.2)
      | none => (st.1, st.2 + 1))
    ([], 0)
  { written := if res.1 ≠ [] then some res.1 else none, skipped := res.2 }

/-! ### Order facts for the comparators -/
/-- Strict "less than" on code-point strings (Python `str`/`Path`
comparison), used by `sorted(unit_dir.iterdir())`. -/
def strLtB (a b : List Nat) : Bool := decide (strCmp a b = Ordering.lt)

/-! ### Collecting a (unit, category) merge group (`merge_pdfs_by_type`)

A unit directory is a list of its entries; for the category being
merged, each class entry carries the raw listing of
`<class>/<category>/*.pdf` (or `none` when that subdirectory does not
exist).  The code iterates over `sorted(unit_dir.iterdir())`, keeps the
directories, and extends the member list with each class's PDFs sorted
by `natural_sort_key` — there is no global re-sort of the combined
list. -/
structure ClassEntry where
  /-- Entry name inside the unit directory. -/
  cname : List Nat
  /-- Whether the entry is a directory (`class_dir.is_dir()`). -/
  isDir : Bool
  /-- Listing of the category subdirectory (`none` = does not exist). -/
  pdfs : Option (List (List Nat))
deriving DecidableEq

/-- The members `pdf_files` accumulated for one (unit, category) group,
as (class-directory name, file name) pairs, in the order the code
appends them. -/
def collectGroup (entries : List ClassEntry) : List (List Nat × List Nat) :=
  (sortBy (fun e₁ e₂ => strLtB e₁.cname e₂.cname) entries).foldl
    (fun acc e =>
      if e.isDir then
        match e.pdfs with
        | some ps => acc ++ (sortBy natLtB ps).map (fun p => (e.cname, p))
        | none => acc
      else acc)
    []

/-- The contribution of a single class entry to the member list. -/
def entryMembers (e : ClassEntry) : List (List Nat × List Nat) :=
  if e.isDir then
    match e.pdfs with
    | some ps => (sortBy natLtB ps).map (fun p => (e.cname, p))
    | none => []
  else []

/-- One (unit, category) round of `merge_pdfs_by_type`: `none` when no
member PDFs were found or none survived (no file written), otherwise
the written file's name and pages.  `pagesOf` gives a member's pages,
`none` when `merger.append` raises on it. -/
def merge_unit_category (unitName category : List Nat) (entries : List ClassEntry)
    (pagesOf : List Nat × List Nat → Option (List Nat)) : Option (List Nat × List Nat) :=
  let files := collectGroup entries
  if files = [] then none
  else
    match (mergeGroup (files.map pagesOf)).written with
    | some pages => some (unitName ++ strL "_" ++ category ++ strL "_Merged.pdf", pages)
    | none => none

/-- Unit directory with two class folders whose lexicographic order
disagrees with the natural-key order of the files inside. -/
def entriesC3 : List ClassEntry :=
  [{ cname := strL "01_B", isDir := true, pdfs := some [strL "5.x.pdf"] },
   { cname := strL "02_A", isDir := true, pdfs := some [strL "3.x.pdf"] }]

/-- Singleton unit directory used as a concrete witness input. -/
def entriesW : List ClassEntry :=
  [{ cname := strL "01_Intro", isDir := true,
     pdfs := some [strL "2.Intro.pdf", strL "1.Intro.pdf"] }]

/-- Concrete page assignment for the witness input. -/
def pagesW : List Nat × List Nat → Option (List Nat) := fun m =>
  if m.2 = strL "1.Intro.pdf" then some [1, 2] else some [3]

/-! ### Repair Engine (`PPTXRepair`)

Files/paths are abstract ids (`Nat`).  The behaviour of the external
libraries (python-pptx, `zipfile`) is an environment record.  Each
strategy returns (its boolean result, the size it wrote to its own
output path `repaired_<i>_<name>` — `none` when nothing was written).
`attempt_repair` creates one scratch directory (`mkdtemp`), runs the
strategies in order against it, returns the first output that exists
with non-zero size (keeping the scratch directory alive, since the
returned file lives inside it), and removes the whole directory with
`rmtree` when no strategy succeeds. -/
structure RepairEnv where
  /-- `PPTX_AVAILABLE` (python-pptx importable). -/
  pptxAvailable : Bool
  /-- `Presentation(input); prs.save(output)`: `none` = raises,
  `some n` = saved an `n`-byte output. -/
  reserialize : Nat → Option Nat
  /-- Whether the input is a valid ZIP archive (`BadZipFile` otherwise). -/
  validZip : Nat → Bool
  /-- Size of the fresh ZIP written when re-zipping a valid archive. -/
  rezipSize : Nat → Nat
  /-- Size of the relationship-repaired re-archive. -/
  relsSize : Nat → Nat
  /-- Whether `Presentation(output)` load-validation succeeds. -/
  loadValidates : Nat → Bool

/-- `PPTXRepair.repair_with_pptx`: skipped (plain failure) when the
library is absent; otherwise load + re-save. -/
def repair_with_pptx (env : RepairEnv) (doc : Nat) : Bool × Option Nat :=
  if env.pptxAvailable then
    match env.reserialize doc with
    | some n => (true, some n)
    | none => (false, none)
  else (false, none)

/-- `PPTXRepair.repair_by_rezip`: declines when the input is not a
valid ZIP; otherwise extracts and re-zips. -/
def repair_by_rezip (env : RepairEnv) (doc : Nat) : Bool × Option Nat :=
  if env.validZip doc then (true, some (env.rezipSize doc)) else (false, none)

/-- `PPTXRepair.repair_xml_relationships`: declines on an invalid ZIP;
otherwise strips broken hyperlink relationships, re-archives, and (when
python-pptx is available) reports failure if the result does not load —
the written file stays on disk either way. -/
def repair_xml_relationships (env : RepairEnv) (doc : Nat) : Bool × Option Nat :=
  if env.validZip doc then
    if env.pptxAvailable then
      if env.loadValidates doc then (true, some (env.relsSize doc))
      else (false, some (env.relsSize doc))
    else (true, some (env.relsSize doc))
  else (false, none)

/-- Result of `attempt_repair`: which strategy's output was returned,
whether the scratch directory is still on disk, and its contents
(strategy index, size). -/
structure RepairResult where
  repairedIdx : Option Nat
  scratchRemains : Bool
  scratchFiles : List (Nat × Nat)
deriving DecidableEq

/-- Size of the file at output path `i` in the scratch directory. -/
def fileSize (files : List (Nat × Nat)) (i : Nat) : Option Nat :=
  (files.find? (fun f => f.1 == i)).map Prod.snd

/-- The `exists() and st_size > 0` acceptance test of the loop. -/
def succB (o : Bool × Option Nat) : Bool :=
  o.1 && (match o.2 with | some n => decide (0 < n) | none => false)

/-- The strategy loop of `attempt_repair`, threading the scratch
directory contents. -/
def repairLoop (env : RepairEnv) (doc : Nat) :
    List (Nat × (RepairEnv → Nat → Bool × Option Nat)) → List (Nat × Nat) →
      Option (Nat × List (Nat × Nat))
  | [], _ => none
  | (i, s) :: rest, files =>
    let r := s env doc
    let filesNext := match r.2 with
      | some n => files ++ [(i, n)]
      | none => files
    let ok := r.1 && (match fileSize filesNext i with
      | some n => decide (0 < n)
      | none => false)
    if ok then some (i, filesNext) else repairLoop env doc rest filesNext

/-- `PPTXRepair.attempt_repair`. -/
def attempt_repair (env : RepairEnv) (doc : Nat) : RepairResult :=
  match repairLoop env doc
      [(0, repair_with_pptx), (1, repair_by_rezip), (2, repair_xml_relationships)] [] with
  | some (i, files) =>
    { repairedIdx := some i, scratchRemains := true, scratchFiles := files }
  | none => { repairedIdx := none, scratchRemains := false, scratchFiles := [] }

/-- Environment in which every repair strategy fails: python-pptx
absent and the input not a valid ZIP. -/
def renvFail : RepairEnv :=
  { pptxAvailable := false, reserialize := fun _ => none, validZip := fun _ => false,
    rezipSize := fun _ => 0, relsSize := fun _ => 0, loadValidates := fun _ => false }

/-! ### Conversion Engine (`OfficeConverter`)

Each backend is an abstract function of the input document returning
(the boolean the method call returned, whether the output file exists
with non-zero size right after the call).  `repairedDoc doc i` is the
identity of the scratch file `repaired_<i>_<name>` that
`attempt_repair` returns for `doc`. -/
structure ConvEnv where
  /-- `convert_with_powerpoint` (PowerPoint COM). -/
  powerpoint : Nat → Bool × Bool
  /-- `convert_with_aspose_slides`. -/
  aspose : Nat → Bool × Bool
  /-- `convert_with_libreoffice`. -/
  libre : Nat → Bool × Bool
  /-- `convert_with_word` (Word COM). -/
  word : Nat → Bool × Bool
  /-- Environment of the inner Repair Engine. -/
  renv : RepairEnv
  /-- Identity of the repaired copy produced by strategy `i`. -/
  repairedDoc : Nat → Nat → Nat

/-- The `for method, method_name in methods` loop shared by both
converters: first method that returns true and leaves a non-empty
output wins. -/
def tryMethods (doc : Nat) : List ((Nat → Bool × Bool) × List Nat) → Option (List Nat)
  | [] => none
  | (m, name) :: rest =>
    let r := m doc
    if r.1 then
      if r.2 then some name else tryMethods doc rest
    else tryMethods doc rest

/-- The presentation cascade, in the code's fixed order. -/
def pptxMethods (env : ConvEnv) : List ((Nat → Bool × Bool) × List Nat) :=
  [(env.powerpoint, strL "PowerPoint COM"), (env.aspose, strL "Aspose.Slides"),
   (env.libre, strL "LibreOffice")]

/-- The word-processing cascade, in the code's fixed order. -/
def docxMethods (env : ConvEnv) : List ((Nat → Bool × Bool) × List Nat) :=
  [(env.word, strL "Word COM"), (env.libre, strL "LibreOffice")]

/-- `OfficeConverter.convert_pptx_to_pdf` together with the fate of the
repair scratch directory: second component is `none` when no scratch
directory exists on return, `some files` when one remains with those
files.  The cleanup the code attempts is `repaired_path.parent.rmdir()`
inside `try/except: pass`: `rmdir` only removes an empty directory, so
the directory survives exactly when it still holds files. -/
def convert_pptx_to_pdf_full (env : ConvEnv) (doc : Nat) :
    (Bool × List Nat) × Option (List (Nat × Nat)) :=
  match tryMethods doc (pptxMethods env) with
  | some name => ((true, name), none)
  | none =>
    let rr := attempt_repair env.renv doc
    match rr.repairedIdx with
    | some i =>
      let scratch := if rr.scratchFiles = [] then none else some rr.scratchFiles
      match tryMethods (env.repairedDoc doc i) (pptxMethods env) with
      | some name => ((true, name ++ strL " (repaired)"), scratch)
      | none => ((false, strL "none"), scratch)
    | none => ((false, strL "none"), none)

/-- The (success, backend label) pair `convert_pptx_to_pdf` returns. -/
def convert_pptx_to_pdf (env : ConvEnv) (doc : Nat) : Bool × List Nat :=
  (convert_pptx_to_pdf_full env doc).1

/-- `OfficeConverter.convert_docx_to_pdf`: the word cascade only — the
code has no repair tier here. -/
def convert_docx_to_pdf (env : ConvEnv) (doc : Nat) : Bool × List Nat :=
  match tryMethods doc (docxMethods env) with
  | some name => (true, name)
  | none => (false, strL "none")

/-- `convert_docx_to_pdf` as claim C1 words it (refinement comparison
definition, written from the claim): the word-processing cascade is
followed, on total failure, by one Repair Engine invocation and a retry
of the same cascade on the repaired copy with an `(repaired)` label. -/
def convert_docx_to_pdf_claim (env : ConvEnv) (doc : Nat) : Bool × List Nat :=
  match tryMethods doc (docxMethods env) with
  | some name => (true, name)
  | none =>
    match (attempt_repair env.renv doc).repairedIdx with
    | some i =>
      match tryMethods (env.repairedDoc doc i) (docxMethods env) with
      | some name => (true, name ++ strL " (repaired)")
      | none => (false, strL "none")
    | none => (false, strL "none")

/-- Repair environment whose first strategy (reserialize) succeeds. -/
def renvOk : RepairEnv :=
  { pptxAvailable := true, reserialize := fun _ => some 5, validZip := fun _ => false,
    rezipSize := fun _ => 0, relsSize := fun _ => 0, loadValidates := fun _ => true }

/-- Conversion environment: every backend fails on document 0, Word COM
succeeds on the repaired copy (document 1), repair succeeds. -/
def envC1 : ConvEnv :=
  { powerpoint := fun _ => (false, false), aspose := fun _ => (false, false),
    libre := fun _ => (false, false),
    word := fun d => if d = 1 then (true, true) else (false, false),
    renv := renvOk, repairedDoc := fun _ _ => 1 }

/-- Conversion environment: as `envC1` but PowerPoint COM succeeds on
the repaired copy, so the retried presentation cascade succeeds. -/
def envC8 : ConvEnv :=
  { powerpoint := fun d => if d = 1 then (true, true) else (false, false),
    aspose := fun _ => (false, false), libre := fun _ => (false, false),
    word := fun _ => (false, false), renv := renvOk, repairedDoc := fun _ _ => 1 }

/-- The attempt list a cascade produces on a document. -/
def firstSuccessName (l : List (List Nat × (Bool × Bool))) : Option (List Nat) :=
  (l.find? (fun a => a.2.1 && a.2.2)).map Prod.fst

/-! ### Batch Conversion Orchestrator (`convert_office_to_pdf`)

Each discovered Office file comes with the outcome of its conversion
call: `ok method` (the converter returned `(True, method)`), `failed`
(it returned `(False, _)`), or `exn` (the call raised and the
`except` block ran).  Filesystem deletion of the source
(`office_file.unlink()`) is modelled as succeeding. -/
inductive ConvOutcome where
  | ok (method : List Nat)
  | failed
  | exn
deriving DecidableEq

structure OfficeFile where
  name : List Nat
  /-- `office_file.suffix.lower()`. -/
  ext : List Nat
deriving DecidableEq

structure BatchStats where
  success : Nat
  repaired : Nat
  failed : Nat
  convertedFiles : List (List Nat)
  failedFiles : List (List Nat)
  deletedFiles : List (List Nat)
deriving DecidableEq

/-- Initial counters of a batch run. -/
def initStats : BatchStats :=
  { success := 0, repaired := 0, failed := 0,
    convertedFiles := [], failedFiles := [], deletedFiles := [] }

/-- Extensions dispatched to the presentation cascade. -/
def pptxExts : List (List Nat) := [strL ".pptx", strL ".ppt"]

/-- Extensions dispatched to the word-processing cascade. -/
def docxExts : List (List Nat) := [strL ".docx", strL ".doc"]

/-- One iteration of the batch loop. -/
def processFile (st : BatchStats) (fo : OfficeFile × ConvOutcome) : BatchStats :=
  if fo.1.ext ∈ pptxExts ∨ fo.1.ext ∈ docxExts then
    match fo.2 with
    | .ok method =>
      if containsSub (strL "repaired") method then
        { st with repaired := st.repaired + 1,
                  convertedFiles := st.convertedFiles ++ [fo.1.name],
                  deletedFiles := st.deletedFiles ++ [fo.1.name] }
      else
        { st with success := st.success + 1,
                  convertedFiles := st.convertedFiles ++ [fo.1.name],
                  deletedFiles := st.deletedFiles ++ [fo.1.name] }
    | .failed =>
      { st with failed := st.failed + 1, failedFiles := st.failedFiles ++ [fo.1.name] }
    | .exn =>
      { st with failed := st.failed + 1, failedFiles := st.failedFiles ++ [fo.1.name] }
  else
    { st with failed := st.failed + 1, failedFiles := st.failedFiles ++ [fo.1.name] }

/-- `convert_office_to_pdf`: fold the batch loop over the discovered
files (counters reset at the start of the run). -/
def convert_office_to_pdf (files : List (OfficeFile × ConvOutcome)) : BatchStats :=
  files.foldl processFile initStats

/-- Whether the batch loop counts this file as a failure (conversion
returned false, raised, or the extension is dispatched to neither
cascade). -/
def isFailureCase (fo : OfficeFile × ConvOutcome) : Bool :=
  !(decide (fo.1.ext ∈ pptxExts ∨ fo.1.ext ∈ docxExts)
    && (match fo.2 with | .ok _ => true | .failed => false | .exn => false))

/-! ### Theorems -/

/-- C4 counterexample: on a ZIP whose body contains the secondary
marker `document` but none of the claim's markers `ppt/`, `word/`,
`xl/`, the code classifies word-processing (`.docx`) while the claim's
rules give the generic-ZIP default, presentation (`.pptx`). -/
theorem detect_file_type_document_marker :
    detect_file_type (some bytesC4) = some (strL ".docx")
    ∧ detect_file_type_claim (some bytesC4) = some (strL ".pptx")
    ∧ detect_file_type (some bytesC4) ≠ detect_file_type_claim (some bytesC4) := by
  decide

/-- C4 (amended): classification from the leading bytes: a ZIP
containing `ppt/` (or, lowercased, `slideshow`) is a presentation; a
ZIP containing `word/` (or `document`) and no presentation marker is
word-processing; a ZIP containing `xl/` (or `workbook`) and no earlier
marker is a spreadsheet; any other ZIP defaults to presentation; a
`%PDF` header is PDF; a compound-file-binary header is a legacy
presentation; anything else (including an unreadable file) is
unknown. -/
theorem detect_file_type_spec (bytes : List Nat) :
    (magicIs zipMagic bytes = true →
      ((hasMarker (strL "ppt/") bytes = true ∨ hasMarkerCI (strL "slideshow") bytes = true) →
        detect_file_type (some bytes) = some (strL ".pptx"))
      ∧ (hasMarker (strL "ppt/") bytes = false → hasMarkerCI (strL "slideshow") bytes = false →
          (hasMarker (strL "word/") bytes = true ∨ hasMarkerCI (strL "document") bytes = true) →
          detect_file_type (some bytes) = some (strL ".docx"))
      ∧ (hasMarker (strL "ppt/") bytes = false → hasMarkerCI (strL "slideshow") bytes = false →
          hasMarker (strL "word/") bytes = false → hasMarkerCI (strL "document") bytes = false →
          (hasMarker (strL "xl/") bytes = true ∨ hasMarkerCI (strL "workbook") bytes = true) →
          detect_file_type (some bytes) = some (strL ".xlsx"))
      ∧ (hasMarker (strL "ppt/") bytes = false → hasMarkerCI (strL "slideshow") bytes = false →
          hasMarker (strL "word/") bytes = false → hasMarkerCI (strL "document") bytes = false →
          hasMarker (strL "xl/") bytes = false → hasMarkerCI (strL "workbook") bytes = false →
          detect_file_type (some bytes) = some (strL ".pptx")))
    ∧ (magicIs zipMagic bytes = false → magicIs (strL "%PDF") bytes = true →
        detect_file_type (some bytes) = some (strL ".pdf"))
    ∧ (magicIs zipMagic bytes = false → magicIs (strL "%PDF") bytes = false →
        magicIs cfbMagic bytes = true →
        detect_file_type (some bytes) = some (strL ".ppt"))
    ∧ (magicIs zipMagic bytes = false → magicIs (strL "%PDF") bytes = false →
        magicIs cfbMagic bytes = false →
        detect_file_type (some bytes) = none)
    ∧ detect_file_type none = none := by
  simp only [detect_file_type, magicIs, hasMarker, hasMarkerCI, List.map_take]
  refine ⟨fun hz => ⟨?_, ?_, ?_, ?_⟩, ?_, ?_, ?_, trivial⟩
  · rintro (h | h) <;> simp [hz, h]
  · intro h1 h2 h3
    rcases h3 with h3 | h3 <;> simp [hz, h1, h2, h3]
  · intro h1 h2 h3 h4 h5
    rcases h5 with h5 | h5 <;> simp [hz, h1, h2, h3, h4, h5]
  · intro h1 h2 h3 h4 h5 h6
    simp [hz, h1, h2, h3, h4, h5, h6]
  · intro hz hp; simp [hz, hp]
  · intro hz hp hc; simp [hz, hp, hc]
  · intro hz hp hc; simp [hz, hp, hc]

/-- Witness for `detect_file_type_spec` at concrete inputs: a ZIP
containing `ppt/` classifies `.pptx`, one containing `word/` classifies
`.docx`, and a file with no recognized magic classifies unknown. -/
theorem detect_file_type_spec_witness :
    detect_file_type (some (zipMagic ++ strL "ppt/")) = some (strL ".pptx")
    ∧ detect_file_type (some (zipMagic ++ strL "word/")) = some (strL ".docx")
    ∧ detect_file_type (some (strL "hello")) = none :=
  ⟨((detect_file_type_spec (zipMagic ++ strL "ppt/")).1 (by decide)).1 (Or.inl (by decide)),
   ((detect_file_type_spec (zipMagic ++ strL "word/")).1 (by decide)).2.1
     (by decide) (by decide) (Or.inl (by decide)),
   (detect_file_type_spec (strL "hello")).2.2.2.1 (by decide) (by decide) (by decide)⟩

/-- C9: the classifier is total: an unreadable file (the I/O-failure
path) yields unknown, and every input yields either unknown or one of
the five recognized classifications — the model of "never raises". -/
theorem detect_file_type_total :
    detect_file_type none = none
    ∧ ∀ file : Option (List Nat),
        detect_file_type file = none
        ∨ detect_file_type file ∈ [some (strL ".pptx"), some (strL ".docx"),
            some (strL ".xlsx"), some (strL ".pdf"), some (strL ".ppt")] := by
  refine ⟨rfl, fun file => ?_⟩
  match file with
  | none => exact Or.inl rfl
  | some bytes =>
    simp only [detect_file_type]
    split
    · split
      · simp
      · split
        · simp
        · split <;> simp
    · split
      · simp
      · split <;> simp

theorem natCmp_self (a : Nat) : natCmp a a = .eq := by simp [natCmp]

theorem strCmp_self (s : List Nat) : strCmp s s = .eq := by
  induction s with
  | nil => rfl
  | cons a as ih => simp [strCmp, natCmp_self, ih]

theorem splitTxt_nondigit_runs (pre : List Nat) (hpre : ∀ c ∈ pre, isDigitN c = false) :
    ∀ (acc rest : List Nat), splitTxt acc (pre ++ rest) = splitTxt (pre.reverse ++ acc) rest := by
  induction pre with
  | nil => intro acc rest; simp
  | cons p ps ih =>
    intro acc rest
    have hp : isDigitN p = false := hpre p (by simp)
    have hps : ∀ c ∈ ps, isDigitN c = false := fun c hc => hpre c (by simp [hc])
    have h2 := ih hps (p :: acc) rest
    simp only [List.cons_append, splitTxt, hp]
    simpa [List.append_assoc] using h2

theorem splitDig_digit_runs (d : List Nat) (hd : ∀ c ∈ d, isDigitN c = true) :
    ∀ (acc rest : List Nat), splitDig acc (d ++ rest) = splitDig (d.reverse ++ acc) rest := by
  induction d with
  | nil => intro acc rest; simp
  | cons e es ih =>
    intro acc rest
    have he : isDigitN e = true := hd e (by simp)
    have hes : ∀ c ∈ es, isDigitN c = true := fun c hc => hd c (by simp [hc])
    have h2 := ih hes (e :: acc) rest
    simp only [List.cons_append, splitDig, he]
    simpa [List.append_assoc] using h2

theorem splitDig_end (acc suf : List Nat) (hsuf : ∀ c ∈ suf.take 1, isDigitN c = false) :
    splitDig acc suf = acc.reverse :: splitTxt [] suf := by
  cases suf with
  | nil => rfl
  | cons c cs =>
    have hc : isDigitN c = false := hsuf c (by simp)
    simp [splitDig, splitTxt, hc]

theorem splitRuns_concat (pre d suf : List Nat)
    (hpre : ∀ c ∈ pre, isDigitN c = false)
    (hne : d ≠ []) (hd : ∀ c ∈ d, isDigitN c = true)
    (hsuf : ∀ c ∈ suf.take 1, isDigitN c = false) :
    splitRuns (pre ++ d ++ suf) = pre :: d :: splitRuns suf := by
  match d, hne with
  | e :: es, _ =>
    have he : isDigitN e = true := hd e (by simp)
    have hes : ∀ c ∈ es, isDigitN c = true := fun c hc => hd c (by simp [hc])
    calc splitRuns (pre ++ (e :: es) ++ suf)
        = splitTxt pre.reverse ((e :: es) ++ suf) := by
          rw [splitRuns, List.append_assoc, splitTxt_nondigit_runs pre hpre]
          simp
      _ = pre :: splitDig [e] (es ++ suf) := by
          simp [splitTxt, he]
      _ = pre :: splitDig (es.reverse ++ [e]) suf := by
          rw [splitDig_digit_runs es hes]
      _ = pre :: (e :: es) :: splitTxt [] suf := by
          rw [splitDig_end _ _ hsuf]; simp
      _ = pre :: (e :: es) :: splitRuns suf := rfl

theorem splitRuns_nondigit (s : List Nat) (hs : ∀ c ∈ s, isDigitN c = false) :
    splitRuns s = [s] := by
  have := splitTxt_nondigit_runs s hs [] []
  simpa [splitRuns, splitTxt] using this

theorem keyOf_digit (d : List Nat) (hne : d ≠ []) (hd : ∀ c ∈ d, isDigitN c = true) :
    keyOf d = KeyPart.num (natVal d) := by
  rw [keyOf, if_pos ⟨hne, hd⟩]

theorem keyOf_nondigit (part : List Nat) (h : ∀ c ∈ part, isDigitN c = false) :
    keyOf part = KeyPart.txt (part.map pyLower) := by
  rw [keyOf, if_neg]
  rintro ⟨hne, hall⟩
  match part, hne with
  | p :: ps, _ =>
    have h1 := hall p (by simp)
    have h2 := h p (by simp)
    rw [h1] at h2
    exact Bool.noConfusion h2

/-- C5: digit runs compare numerically under `natural_sort_key`: for
any two filenames `pre ++ d ++ suf` that differ only in the embedded
digit run `d`, the key of the name with the smaller numeric value is
strictly smaller, whatever the digit strings look like (so `10` cannot
sort before `2`); non-digit runs are lowercased (case-insensitive)
text; and sorting the names `1.X.pdf` … `11.X.pdf` arranges them in
numeric order. -/
theorem natural_sort_key_numeric :
    (∀ pre d₁ d₂ suf : List Nat,
      (∀ c ∈ pre, isDigitN c = false) →
      d₁ ≠ [] → (∀ c ∈ d₁, isDigitN c = true) →
      d₂ ≠ [] → (∀ c ∈ d₂, isDigitN c = true) →
      (∀ c ∈ suf.take 1, isDigitN c = false) →
      natVal d₁ < natVal d₂ →
      keyCmp (natural_sort_key (pre ++ d₁ ++ suf)) (natural_sort_key (pre ++ d₂ ++ suf))
        = some Ordering.lt)
    ∧ (∀ s : List Nat, (∀ c ∈ s, isDigitN c = false) →
        natural_sort_key s = [KeyPart.txt (s.map pyLower)])
    ∧ sortBy natLtB
        [strL "10.X.pdf", strL "11.X.pdf", strL "2.X.pdf", strL "9.X.pdf", strL "1.X.pdf",
         strL "4.X.pdf", strL "3.X.pdf", strL "7.X.pdf", strL "5.X.pdf", strL "8.X.pdf",
         strL "6.X.pdf"]
      = [strL "1.X.pdf", strL "2.X.pdf", strL "3.X.pdf", strL "4.X.pdf", strL "5.X.pdf",
         strL "6.X.pdf", strL "7.X.pdf", strL "8.X.pdf", strL "9.X.pdf", strL "10.X.pdf",
         strL "11.X.pdf"] := by
  refine ⟨?_, ?_, by decide⟩
  · intro pre d₁ d₂ suf hpre h1ne h1d h2ne h2d hsuf hv
    have e₁ := splitRuns_concat pre d₁ suf hpre h1ne h1d hsuf
    have e₂ := splitRuns_concat pre d₂ suf hpre h2ne h2d hsuf
    simp only [natural_sort_key, e₁, e₂, List.map_cons,
      keyOf_digit d₁ h1ne h1d, keyOf_digit d₂ h2ne h2d, keyOf_nondigit pre hpre]
    simp [keyCmp, partCmp, strCmp_self, natCmp, hv]
  · intro s hs
    simp [natural_sort_key, splitRuns_nondigit s hs, keyOf_nondigit s hs]

/-- Witness for `natural_sort_key_numeric` at a concrete pair: the key
of `2.X.pdf` is strictly below the key of `10.X.pdf`. -/
theorem natural_sort_key_numeric_witness :
    keyCmp (natural_sort_key ([] ++ strL "2" ++ strL ".X.pdf"))
      (natural_sort_key ([] ++ strL "10" ++ strL ".X.pdf")) = some Ordering.lt :=
  natural_sort_key_numeric.1 [] (strL "2") (strL "10") (strL ".X.pdf")
    (by decide) (by decide) (by decide) (by decide) (by decide) (by decide) (by decide)

theorem mergeGroup_fold (files : List (Option (List Nat))) :
    ∀ (acc : List Nat) (k : Nat),
      files.foldl
        (fun (st : List Nat × Nat) f =>
          match f with
          | some pages => (st.1 ++ pages, st.2)
          | none => (st.1, st.2 + 1))
        (acc, k)
      = (acc ++ (files.filterMap id).flatten, k + files.countP (·.isNone)) := by
  induction files with
  | nil => intro acc k; simp
  | cons f fs ih =>
    intro acc k
    cases f with
    | some pages =>
      simp only [List.foldl_cons, ih, List.filterMap_cons, List.countP_cons]
      simp [List.append_assoc]
    | none =>
      simp only [List.foldl_cons, ih, List.filterMap_cons, List.countP_cons]
      simp [Nat.add_comm, Nat.add_assoc, Nat.add_left_comm]

/-- C6: a member that cannot be opened is skipped with a recorded
warning (`skipped` counts exactly the unopenable members) and the
remaining members are still merged (the written pages are the
concatenation of the surviving members' pages); when nothing survives
— in particular when every member is unopenable — no output file is
written, which is the "nothing to merge" outcome rather than an
error. -/
theorem mergeGroup_spec :
    ∀ files : List (Option (List Nat)),
      (mergeGroup files).skipped = files.countP (·.isNone)
      ∧ (mergeGroup files).written
          = (if (files.filterMap id).flatten ≠ [] then some ((files.filterMap id).flatten) else none)
      ∧ ((∀ f ∈ files, f = none) → (mergeGroup files).written = none) := by
  intro files
  have h := mergeGroup_fold files [] 0
  refine ⟨?_, ?_, ?_⟩
  · simp [mergeGroup, h]
  · simp only [mergeGroup, h]
    by_cases hj : (files.filterMap id).flatten = [] <;> simp [hj]
  · intro hall
    have : files.filterMap id = [] := by
      rw [List.filterMap_eq_nil_iff]
      intro f hf; rw [hall f hf]; rfl
    simp [mergeGroup, h, this]

theorem natCmp_lt_iff {a b : Nat} : natCmp a b = .lt ↔ a < b := by
  unfold natCmp
  split_ifs with h1 h2 <;> simp_all <;> omega

theorem natCmp_eq_iff {a b : Nat} : natCmp a b = .eq ↔ a = b := by
  unfold natCmp
  split_ifs with h1 h2 <;> simp_all <;> omega

theorem natCmp_gt_iff {a b : Nat} : natCmp a b = .gt ↔ b < a := by
  unfold natCmp
  split_ifs with h1 h2 <;> simp_all <;> omega

theorem strCmp_eq_iff : ∀ (a b : List Nat), strCmp a b = .eq ↔ a = b
  | [], [] => by simp [strCmp]
  | [], _ :: _ => by simp [strCmp]
  | _ :: _, [] => by simp [strCmp]
  | x :: xs, y :: ys => by
    simp only [strCmp]
    cases h : natCmp x y with
    | eq =>
      have hxy : x = y := natCmp_eq_iff.mp h
      simp [strCmp_eq_iff xs ys, hxy]
    | lt =>
      have hxy : x < y := natCmp_lt_iff.mp h
      simp only [List.cons.injEq]
      constructor
      · intro hc; cases hc
      · rintro ⟨h1, h2⟩; omega
    | gt =>
      have hxy : y < x := natCmp_gt_iff.mp h
      simp only [List.cons.injEq]
      constructor
      · intro hc; cases hc
      · rintro ⟨h1, h2⟩; omega

theorem strCmp_asym : ∀ (a b : List Nat), strCmp a b = .lt → strCmp b a = .gt
  | [], [] => by simp [strCmp]
  | [], _ :: _ => by simp [strCmp]
  | _ :: _, [] => by simp [strCmp]
  | x :: xs, y :: ys => by
    simp only [strCmp]
    cases h : natCmp x y with
    | eq =>
      have hxy : x = y := natCmp_eq_iff.mp h
      subst hxy
      rw [natCmp_self]
      exact strCmp_asym xs ys
    | lt =>
      intro _
      rw [natCmp_gt_iff.mpr (natCmp_lt_iff.mp h)]
    | gt =>
      intro hc; simp at hc

theorem strCmp_trans_lt : ∀ (a b c : List Nat),
    strCmp a b = .lt → strCmp b c = .lt → strCmp a c = .lt
  | [], [], _ => by simp [strCmp]
  | [], _ :: _, [] => by simp [strCmp]
  | [], _ :: _, _ :: _ => by simp [strCmp]
  | _ :: _, [], _ => by simp [strCmp]
  | _ :: _, _ :: _, [] => by simp [strCmp]
  | x :: xs, y :: ys, z :: zs => by
    simp only [strCmp]
    cases h1 : natCmp x y with
    | gt => intro hc; simp at hc
    | eq =>
      have hxy : x = y := natCmp_eq_iff.mp h1
      subst hxy
      cases h2 : natCmp x z with
      | gt => intro _ hc; simp at hc
      | eq =>
        have hxz : x = z := natCmp_eq_iff.mp h2
        subst hxz
        intro ha hb
        exact strCmp_trans_lt xs ys zs ha hb
      | lt => intro _ _; rfl
    | lt =>
      have hxy : x < y := natCmp_lt_iff.mp h1
      intro _
      cases h2 : natCmp y z with
      | gt => intro hc; simp at hc
      | eq =>
        have hyz : y = z := natCmp_eq_iff.mp h2
        subst hyz
        intro _
        rw [natCmp_lt_iff.mpr hxy]
      | lt =>
        intro _
        rw [natCmp_lt_iff.mpr (Nat.lt_trans hxy (natCmp_lt_iff.mp h2))]

theorem partCmp_eq_iff : ∀ (x y : KeyPart), partCmp x y = some .eq ↔ x = y
  | .txt s, .txt t => by simp [partCmp, strCmp_eq_iff]
  | .num m, .num n => by simp [partCmp, natCmp_eq_iff]
  | .txt _, .num _ => by simp [partCmp]
  | .num _, .txt _ => by simp [partCmp]

theorem partCmp_asym : ∀ (x y : KeyPart), partCmp x y = some .lt → partCmp y x = some .gt
  | .txt s, .txt t => by
    simp only [partCmp, Option.some.injEq]
    exact strCmp_asym s t
  | .num m, .num n => by
    simp only [partCmp, Option.some.injEq]
    intro h
    exact natCmp_gt_iff.mpr (natCmp_lt_iff.mp h)
  | .txt _, .num _ => by simp [partCmp]
  | .num _, .txt _ => by simp [partCmp]

theorem partCmp_trans_lt : ∀ (x y z : KeyPart),
    partCmp x y = some .lt → partCmp y z = some .lt → partCmp x z = some .lt
  | .txt s, .txt t, .txt u => by
    simp only [partCmp, Option.some.injEq]
    exact strCmp_trans_lt s t u
  | .num a, .num b, .num c => by
    simp only [partCmp, Option.some.injEq]
    intro h1 h2
    exact natCmp_lt_iff.mpr (Nat.lt_trans (natCmp_lt_iff.mp h1) (natCmp_lt_iff.mp h2))
  | .txt _, .txt _, .num _ => by simp [partCmp]
  | .txt _, .num _, _ => by simp [partCmp]
  | .num _, .txt _, _ => by simp [partCmp]
  | .num _, .num _, .txt _ => by simp [partCmp]

theorem keyCmp_asym : ∀ (a b : List KeyPart), keyCmp a b = some .lt → keyCmp b a = some .gt
  | [], [] => by simp [keyCmp]
  | [], _ :: _ => by simp [keyCmp]
  | _ :: _, [] => by simp [keyCmp]
  | x :: xs, y :: ys => by
    simp only [keyCmp]
    cases h : partCmp x y with
    | none => intro hc; simp at hc
    | some o =>
      cases o with
      | gt => intro hc; simp at hc
      | eq =>
        have hxy : x = y := (partCmp_eq_iff x y).mp h
        subst hxy
        intro h1
        rw [h]
        exact keyCmp_asym xs ys h1
      | lt =>
        intro _
        rw [partCmp_asym x y h]

theorem keyCmp_trans_lt : ∀ (a b c : List KeyPart),
    keyCmp a b = some .lt → keyCmp b c = some .lt → keyCmp a c = some .lt
  | [], [], _ => by simp [keyCmp]
  | [], _ :: _, [] => by simp [keyCmp]
  | [], _ :: _, _ :: _ => by simp [keyCmp]
  | _ :: _, [], _ => by simp [keyCmp]
  | _ :: _, _ :: _, [] => by simp [keyCmp]
  | x :: xs, y :: ys, z :: zs => by
    simp only [keyCmp]
    cases h1 : partCmp x y with
    | none => intro hc; simp at hc
    | some o1 =>
      cases o1 with
      | gt => intro hc; simp at hc
      | eq =>
        have hxy : x = y := (partCmp_eq_iff x y).mp h1
        subst hxy
        cases h2 : partCmp x z with
        | none => intro _ hc; simp at hc
        | some o2 =>
          cases o2 with
          | gt => intro _ hc; simp at hc
          | eq =>
            have hxz : x = z := (partCmp_eq_iff x z).mp h2
            subst hxz
            intro ha hb
            exact keyCmp_trans_lt xs ys zs ha hb
          | lt => intro _ _; rfl
      | lt =>
        intro _
        cases h2 : partCmp y z with
        | none => intro hc; simp at hc
        | some o2 =>
          cases o2 with
          | gt => intro hc; simp at hc
          | eq =>
            have hyz : y = z := (partCmp_eq_iff y z).mp h2
            subst hyz
            intro _
            rw [h1]
          | lt =>
            intro _
            rw [partCmp_trans_lt x y z h1 h2]

theorem natLtB_asym (a b : List Nat) : natLtB a b = true → natLtB b a = false := by
  unfold natLtB
  intro h
  apply decide_eq_false
  intro hc
  rw [keyCmp_asym _ _ (of_decide_eq_true h)] at hc
  simp at hc

theorem natLtB_trans (a b c : List Nat) :
    natLtB a b = true → natLtB b c = true → natLtB a c = true := by
  unfold natLtB
  intro h1 h2
  exact decide_eq_true
    (keyCmp_trans_lt _ _ _ (of_decide_eq_true h1) (of_decide_eq_true h2))

theorem strLtB_asym (a b : List Nat) : strLtB a b = true → strLtB b a = false := by
  unfold strLtB
  intro h
  apply decide_eq_false
  intro hc
  rw [strCmp_asym _ _ (of_decide_eq_true h)] at hc
  exact Ordering.noConfusion hc

theorem strLtB_trans (a b c : List Nat) :
    strLtB a b = true → strLtB b c = true → strLtB a c = true := by
  unfold strLtB
  intro h1 h2
  exact decide_eq_true
    (strCmp_trans_lt _ _ _ (of_decide_eq_true h1) (of_decide_eq_true h2))

theorem mem_insertBy (lt : α → α → Bool) (x : α) :
    ∀ (l : List α) (z : α), z ∈ insertBy lt x l ↔ z = x ∨ z ∈ l := by
  intro l
  induction l with
  | nil => intro z; simp [insertBy]
  | cons y ys ih =>
    intro z
    simp only [insertBy]
    split
    · simp [List.mem_cons]
    · simp only [List.mem_cons, ih z]
      tauto

theorem pairwise_insertBy (lt : α → α → Bool)
    (hasym : ∀ a b, lt a b = true → lt b a = false)
    (htrans : ∀ a b c, lt a b = true → lt b c = true → lt a c = true)
    (x : α) :
    ∀ l : List α, l.Pairwise (fun a b => lt b a = false) →
      (insertBy lt x l).Pairwise (fun a b => lt b a = false) := by
  intro l
  induction l with
  | nil => intro _; simp [insertBy]
  | cons y ys ih =>
    intro hp
    rcases List.pairwise_cons.mp hp with ⟨hy, hys⟩
    simp only [insertBy]
    split
    · rename_i hlt
      refine List.pairwise_cons.mpr ⟨?_, hp⟩
      intro z hz
      rcases List.mem_cons.mp hz with rfl | hz'
      · exact hasym x z hlt
      · by_contra hc
        have hzx : lt z x = true := by
          cases hv : lt z x with
          | true => rfl
          | false => exact absurd hv hc
        have h1 : lt z y = true := htrans z x y hzx hlt
        have h2 : lt z y = false := hy z hz'
        rw [h1] at h2
        exact Bool.noConfusion h2
    · rename_i hnlt
      refine List.pairwise_cons.mpr ⟨?_, ih hys⟩
      intro z hz
      rcases (mem_insertBy lt x ys z).mp hz with rfl | hz'
      · exact Bool.not_eq_true _ ▸ (by simpa using hnlt)
      · exact hy z hz'

theorem sortBy_pairwise (lt : α → α → Bool)
    (hasym : ∀ a b, lt a b = true → lt b a = false)
    (htrans : ∀ a b c, lt a b = true → lt b c = true → lt a c = true)
    (l : List α) :
    (sortBy lt l).Pairwise (fun a b => lt b a = false) := by
  suffices h : ∀ (l acc : List α), acc.Pairwise (fun a b => lt b a = false) →
      (List.foldl (fun acc x => insertBy lt x acc) acc l).Pairwise
        (fun a b => lt b a = false) by
    exact h l [] (by simp)
  intro l
  induction l with
  | nil => intro acc h; simpa using h
  | cons x xs ih =>
    intro acc h
    exact ih _ (pairwise_insertBy lt hasym htrans x acc h)

theorem strLtB_irrefl (c : List Nat) : strLtB c c = false := by
  unfold strLtB
  rw [strCmp_self]
  rfl

theorem insertBy_perm (lt : α → α → Bool) (x : α) :
    ∀ l : List α, (insertBy lt x l).Perm (x :: l)
  | [] => List.Perm.refl _
  | y :: ys => by
    simp only [insertBy]
    split
    · exact List.Perm.refl _
    · exact ((insertBy_perm lt x ys).cons y).trans (List.Perm.swap x y ys)

theorem sortBy_perm (lt : α → α → Bool) (l : List α) : (sortBy lt l).Perm l := by
  suffices h : ∀ (l acc : List α),
      (List.foldl (fun acc x => insertBy lt x acc) acc l).Perm (acc ++ l) by
    simpa using h l []
  intro l
  induction l with
  | nil => intro acc; simp
  | cons x xs ih =>
    intro acc
    simp only [List.foldl_cons]
    refine (ih (insertBy lt x acc)).trans ?_
    refine ((insertBy_perm lt x acc).append_right xs).trans ?_
    exact List.perm_middle.symm

theorem collectGroup_eq_bind (entries : List ClassEntry) :
    collectGroup entries
      = (sortBy (fun e₁ e₂ => strLtB e₁.cname e₂.cname) entries).bind entryMembers := by
  rw [collectGroup]
  have hgen : ∀ (l : List ClassEntry) (acc : List (List Nat × List Nat)),
      l.foldl
        (fun acc e =>
          if e.isDir then
            match e.pdfs with
            | some ps => acc ++ (sortBy natLtB ps).map (fun p => (e.cname, p))
            | none => acc
          else acc)
        acc
      = acc ++ l.bind entryMembers := by
    intro l
    induction l with
    | nil => intro acc; simp
    | cons e es ih =>
      intro acc
      have hstep :
          (if e.isDir then
            match e.pdfs with
            | some ps => acc ++ (sortBy natLtB ps).map (fun p => (e.cname, p))
            | none => acc
          else acc) = acc ++ entryMembers e := by
        unfold entryMembers
        cases e.isDir with
        | false => simp
        | true => cases e.pdfs <;> simp
      simp only [List.foldl_cons, hstep, ih, List.cons_bind, List.append_assoc]
  exact hgen _ []

theorem mem_entryMembers (e : ClassEntry) (m : List Nat × List Nat) :
    m ∈ entryMembers e → m.1 = e.cname := by
  obtain ⟨cn, d, ps⟩ := e
  cases d with
  | false => simp [entryMembers]
  | true =>
    cases ps with
    | none => simp [entryMembers]
    | some l =>
      intro hm
      simp only [entryMembers, if_true, List.mem_map] at hm
      obtain ⟨p, _, heq⟩ := hm
      rw [← heq]

theorem entryMembers_pairwise (e : ClassEntry) :
    (entryMembers e).Pairwise
      (fun m₁ m₂ => strLtB m₂.1 m₁.1 = false ∧ (m₁.1 = m₂.1 → natLtB m₂.2 m₁.2 = false)) := by
  obtain ⟨cn, d, ps⟩ := e
  cases d with
  | false => simp [entryMembers]
  | true =>
    cases ps with
    | none => simp [entryMembers]
    | some l =>
      show (List.map (fun p => (cn, p)) (sortBy natLtB l)).Pairwise _
      rw [List.pairwise_map]
      have h := sortBy_pairwise natLtB natLtB_asym natLtB_trans l
      refine h.imp ?_
      intro a b hab
      exact ⟨strLtB_irrefl cn, fun _ => hab⟩

theorem bind_pairwise_members (es : List ClassEntry)
    (hp : es.Pairwise (fun e₁ e₂ => strLtB e₂.cname e₁.cname = false))
    (hne : es.Pairwise (fun e₁ e₂ => e₁.cname ≠ e₂.cname)) :
    (es.bind entryMembers).Pairwise
      (fun m₁ m₂ => strLtB m₂.1 m₁.1 = false ∧ (m₁.1 = m₂.1 → natLtB m₂.2 m₁.2 = false)) := by
  induction es with
  | nil => simp
  | cons e es ih =>
    rcases List.pairwise_cons.mp hp with ⟨hpe, hp'⟩
    rcases List.pairwise_cons.mp hne with ⟨hnee, hne'⟩
    simp only [List.cons_bind]
    rw [List.pairwise_append]
    refine ⟨entryMembers_pairwise e, ih hp' hne', ?_⟩
    intro m₁ hm₁ m₂ hm₂
    have h1 : m₁.1 = e.cname := mem_entryMembers e m₁ hm₁
    rcases List.mem_bind.mp hm₂ with ⟨e', he', hm₂'⟩
    have h2 : m₂.1 = e'.cname := mem_entryMembers e' m₂ hm₂'
    constructor
    · rw [h1, h2]
      exact hpe e' he'
    · intro heq
      exact absurd (h1 ▸ h2 ▸ heq) (hnee e' he')

theorem mergeGroup_written_eq (files : List (Option (List Nat))) :
    (mergeGroup files).written
      = (if (files.filterMap id).flatten ≠ [] then some ((files.filterMap id).flatten)
         else none) := by
  have h := mergeGroup_fold files [] 0
  simp only [mergeGroup, h]
  by_cases hj : (files.filterMap id).flatten = [] <;> simp [hj]

/-- C3 counterexample: with class folders `01_B` (containing `5.x.pdf`)
and `02_A` (containing `3.x.pdf`), the code's member order is
`[5.x.pdf, 3.x.pdf]` — per-class natural sort concatenated in
class-folder order — which is not the natural-order sort over all
members of the group (`3.x.pdf` has the strictly smaller key). -/
theorem collectGroup_not_naturally_sorted :
    (collectGroup entriesC3).map Prod.snd = [strL "5.x.pdf", strL "3.x.pdf"]
    ∧ natLtB (strL "3.x.pdf") (strL "5.x.pdf") = true
    ∧ (collectGroup entriesC3).map Prod.snd
        ≠ sortBy natLtB ((collectGroup entriesC3).map Prod.snd) := by
  decide

/-- C3 (amended): for a (unit, category) merge group over class
directories with distinct names, the member PDF paths are ordered by
class directory (lexicographically by directory name) and, within each
class directory, by the natural-order key — not re-sorted globally;
the merged document, when one is written, contains exactly the
concatenation of the surviving members' pages in that order and is
named `<unitName>_<category>_Merged.pdf` inside the unit directory. -/
theorem merge_unit_category_spec (unitName category : List Nat)
    (entries : List ClassEntry)
    (pagesOf : List Nat × List Nat → Option (List Nat))
    (hnames : entries.Pairwise (fun e₁ e₂ => e₁.cname ≠ e₂.cname)) :
    (collectGroup entries).Pairwise
      (fun m₁ m₂ => strLtB m₂.1 m₁.1 = false ∧ (m₁.1 = m₂.1 → natLtB m₂.2 m₁.2 = false))
    ∧ ∀ out, merge_unit_category unitName category entries pagesOf = some out →
        out.1 = unitName ++ strL "_" ++ category ++ strL "_Merged.pdf"
        ∧ out.2 = ((collectGroup entries).filterMap pagesOf).flatten
        ∧ out.2 ≠ [] := by
  constructor
  · rw [collectGroup_eq_bind]
    apply bind_pairwise_members
    · exact sortBy_pairwise _ (fun a b => strLtB_asym a.cname b.cname)
        (fun a b c => strLtB_trans a.cname b.cname c.cname) entries
    · have hperm := sortBy_perm (fun e₁ e₂ => strLtB e₁.cname e₂.cname) entries
      exact (List.Perm.pairwise_iff (fun h heq => h heq.symm) hperm).mpr hnames
  · intro out hout
    simp only [merge_unit_category] at hout
    split at hout
    · exact Option.noConfusion hout
    · rw [mergeGroup_written_eq, List.filterMap_map, Function.id_comp] at hout
      split at hout
      · rename_i pages hpag
        injection hout with h
        subst h
        by_cases hc : ((collectGroup entries).filterMap pagesOf).flatten = []
        · rw [if_neg (fun hcon => hcon hc)] at hpag
          exact Option.noConfusion hpag
        · rw [if_pos hc] at hpag
          injection hpag with h2
          exact ⟨rfl, h2.symm, fun hcon => hc (h2.trans hcon)⟩
      · exact Option.noConfusion hout

/-- Witness for `merge_unit_category_spec` on a singleton unit
directory: the collected members are pairwise ordered and merging
produces `Unit_1_Slides_Merged.pdf` with the concatenated pages. -/
theorem merge_unit_category_spec_witness :
    (collectGroup entriesW).Pairwise
      (fun m₁ m₂ => strLtB m₂.1 m₁.1 = false ∧ (m₁.1 = m₂.1 → natLtB m₂.2 m₁.2 = false))
    ∧ ((strL "Unit_1_Slides_Merged.pdf", ([1, 2, 3] : List Nat)).1
          = strL "Unit_1" ++ strL "_" ++ strL "Slides" ++ strL "_Merged.pdf"
        ∧ (strL "Unit_1_Slides_Merged.pdf", ([1, 2, 3] : List Nat)).2
          = ((collectGroup entriesW).filterMap pagesW).flatten
        ∧ (strL "Unit_1_Slides_Merged.pdf", ([1, 2, 3] : List Nat)).2 ≠ []) :=
  ⟨(merge_unit_category_spec (strL "Unit_1") (strL "Slides") entriesW pagesW
      (by simp [entriesW])).1,
   (merge_unit_category_spec (strL "Unit_1") (strL "Slides") entriesW pagesW
      (by simp [entriesW])).2
     (strL "Unit_1_Slides_Merged.pdf", [1, 2, 3]) (by decide)⟩

theorem fileSize_append_self (files : List (Nat × Nat)) (i n : Nat)
    (h : ∀ f ∈ files, f.1 ≠ i) : fileSize (files ++ [(i, n)]) i = some n := by
  induction files with
  | nil => simp [fileSize]
  | cons f fs ih =>
    have hf : f.1 ≠ i := h f (by simp)
    have hfs : ∀ g ∈ fs, g.1 ≠ i := fun g hg => h g (by simp [hg])
    simp only [fileSize, List.cons_append, List.find?]
    rw [show (f.1 == i) = false from beq_eq_false_iff_ne.mpr hf]
    exact ih hfs

theorem fileSize_no_hit (files : List (Nat × Nat)) (i : Nat)
    (h : ∀ f ∈ files, f.1 ≠ i) : fileSize files i = none := by
  induction files with
  | nil => rfl
  | cons f fs ih =>
    have hf : f.1 ≠ i := h f (by simp)
    have hfs : ∀ g ∈ fs, g.1 ≠ i := fun g hg => h g (by simp [hg])
    simp only [fileSize, List.find?]
    rw [show (f.1 == i) = false from beq_eq_false_iff_ne.mpr hf]
    exact ih hfs

theorem repairLoop_idx (env : RepairEnv) (doc : Nat) :
    ∀ (ss : List (Nat × (RepairEnv → Nat → Bool × Option Nat))) (files : List (Nat × Nat)),
      (∀ p ∈ ss, ∀ f ∈ files, f.1 ≠ p.1) →
      ss.Pairwise (fun p q => p.1 ≠ q.1) →
      (repairLoop env doc ss files).map Prod.fst
        = (ss.find? (fun p => succB (p.2 env doc))).map Prod.fst := by
  intro ss
  induction ss with
  | nil => intro files _ _; rfl
  | cons p rest ih =>
    intro files hfresh hdist
    obtain ⟨i, s⟩ := p
    rcases List.pairwise_cons.mp hdist with ⟨hdi, hdist'⟩
    have hfr : ∀ f ∈ files, f.1 ≠ i := fun f hf => hfresh (i, s) (by simp) f hf
    rcases hr : s env doc with ⟨b, w⟩
    cases w with
    | some n =>
      have hfiles' : ∀ q ∈ rest, ∀ f ∈ files ++ [(i, n)], f.1 ≠ q.1 := by
        intro q hq f hf
        rcases List.mem_append.mp hf with hf' | hf'
        · exact hfresh q (List.mem_cons_of_mem _ hq) f hf'
        · have hfi : f = (i, n) := by simpa using hf'
          subst hfi
          exact fun hc => (hdi q hq) hc
      have hsz : fileSize (files ++ [(i, n)]) i = some n := fileSize_append_self files i n hfr
      have hcond : succB (s env doc) = (b && decide (0 < n)) := by simp [hr, succB]
      by_cases hb : (b && decide (0 < n)) = true
      · have h1 : repairLoop env doc ((i, s) :: rest) files = some (i, files ++ [(i, n)]) := by
          simp only [repairLoop, hr, hsz]
          simp [hb]
        have h2 : List.find? (fun p => succB (p.2 env doc)) ((i, s) :: rest) = some (i, s) :=
          List.find?_cons_of_pos _ (by rw [show ((i, s).2 : RepairEnv → Nat → Bool × Option Nat) = s from rfl, hcond]; exact hb)
        rw [h1, h2]
        rfl
      · have hbf : (b && decide (0 < n)) = false := by
          cases hv : (b && decide (0 < n)) with
          | true => exact absurd hv hb
          | false => rfl
        have h1 : repairLoop env doc ((i, s) :: rest) files
            = repairLoop env doc rest (files ++ [(i, n)]) := by
          simp only [repairLoop, hr, hsz]
          simp [hbf]
        have h2 : List.find? (fun p => succB (p.2 env doc)) ((i, s) :: rest)
            = List.find? (fun p => succB (p.2 env doc)) rest :=
          List.find?_cons_of_neg _ (by rw [show ((i, s).2 : RepairEnv → Nat → Bool × Option Nat) = s from rfl, hcond, hbf]; simp)
        rw [h1, h2]
        exact ih (files ++ [(i, n)]) hfiles' hdist'
    | none =>
      have hsz : fileSize files i = none := fileSize_no_hit files i hfr
      have hcond : succB (s env doc) = (b && false) := by simp [hr, succB]
      have hbf : (b && false) = false := by simp
      have h1 : repairLoop env doc ((i, s) :: rest) files = repairLoop env doc rest files := by
        simp only [repairLoop, hr, hsz]
        simp
      have h2 : List.find? (fun p => succB (p.2 env doc)) ((i, s) :: rest)
          = List.find? (fun p => succB (p.2 env doc)) rest :=
        List.find?_cons_of_neg _ (by rw [show ((i, s).2 : RepairEnv → Nat → Bool × Option Nat) = s from rfl, hcond, hbf]; simp)
      rw [h1, h2]
      exact ih files (fun q hq f hf => hfresh q (List.mem_cons_of_mem _ hq) f hf) hdist'

/-- C2: `attempt_repair` tries reserialize / re-zip /
relationship-repair in that fixed order and returns the first
strategy's output that exists with non-zero size (`findIdx?` of the
acceptance test over the three outcomes); when no strategy succeeds it
returns none and the scratch directory is removed with nothing left
behind; the reserialize strategy is skipped when the library is absent,
and both ZIP-based strategies decline on an input that is not a valid
ZIP. -/
theorem attempt_repair_spec (env : RepairEnv) (doc : Nat) :
    (attempt_repair env doc).repairedIdx
      = List.findIdx? succB
          [repair_with_pptx env doc, repair_by_rezip env doc, repair_xml_relationships env doc]
    ∧ ((attempt_repair env doc).repairedIdx = none →
        (attempt_repair env doc).scratchRemains = false
        ∧ (attempt_repair env doc).scratchFiles = [])
    ∧ (env.pptxAvailable = false → repair_with_pptx env doc = (false, none))
    ∧ (env.validZip doc = false →
        repair_by_rezip env doc = (false, none)
        ∧ repair_xml_relationships env doc = (false, none)) := by
  have hmain := repairLoop_idx env doc
    [(0, repair_with_pptx), (1, repair_by_rezip), (2, repair_xml_relationships)] []
    (by simp) (by simp)
  have hidx : (attempt_repair env doc).repairedIdx
      = (repairLoop env doc
          [(0, repair_with_pptx), (1, repair_by_rezip), (2, repair_xml_relationships)] []).map
          Prod.fst := by
    unfold attempt_repair
    cases repairLoop env doc
        [(0, repair_with_pptx), (1, repair_by_rezip), (2, repair_xml_relationships)] [] with
    | some p => obtain ⟨i, fs⟩ := p; rfl
    | none => rfl
  have hfind : (List.find? (fun p => succB (p.2 env doc))
        [(0, repair_with_pptx), (1, repair_by_rezip), (2, repair_xml_relationships)]).map
        Prod.fst
      = List.findIdx? succB
          [repair_with_pptx env doc, repair_by_rezip env doc,
           repair_xml_relationships env doc] := by
    by_cases h0 : succB (repair_with_pptx env doc) = true <;>
      by_cases h1 : succB (repair_by_rezip env doc) = true <;>
        by_cases h2 : succB (repair_xml_relationships env doc) = true <;>
          simp [List.find?, List.findIdx?_cons, h0, h1, h2,
            Bool.not_eq_true] <;> simp_all [Bool.not_eq_true]
  refine ⟨hidx.trans (hmain.trans hfind), ?_, ?_, ?_⟩
  · unfold attempt_repair
    cases repairLoop env doc
        [(0, repair_with_pptx), (1, repair_by_rezip), (2, repair_xml_relationships)] [] with
    | some p =>
      obtain ⟨i, fs⟩ := p
      intro hc
      exact absurd hc (by simp)
    | none => intro _; exact ⟨rfl, rfl⟩
  · intro h
    simp [repair_with_pptx, h]
  · intro h
    exact ⟨by simp [repair_by_rezip, h], by simp [repair_xml_relationships, h]⟩

/-- Witness for `attempt_repair_spec`: with python-pptx absent and a
non-ZIP input, every strategy declines, the result is none and no
scratch directory or file remains. -/
theorem attempt_repair_spec_witness :
    ((attempt_repair renvFail 0).scratchRemains = false
      ∧ (attempt_repair renvFail 0).scratchFiles = [])
    ∧ repair_with_pptx renvFail 0 = (false, none)
    ∧ (repair_by_rezip renvFail 0 = (false, none)
      ∧ repair_xml_relationships renvFail 0 = (false, none)) :=
  ⟨(attempt_repair_spec renvFail 0).2.1 (by decide),
   (attempt_repair_spec renvFail 0).2.2.1 (by decide),
   (attempt_repair_spec renvFail 0).2.2.2 (by decide)⟩

theorem tryMethods_eq_find (doc : Nat) :
    ∀ ms : List ((Nat → Bool × Bool) × List Nat),
      tryMethods doc ms = firstSuccessName (ms.map (fun p => (p.2, p.1 doc))) := by
  intro ms
  induction ms with
  | nil => rfl
  | cons p rest ih =>
    obtain ⟨m, name⟩ := p
    rcases hr : m doc with ⟨b1, b2⟩
    simp only [tryMethods, hr, List.map_cons, firstSuccessName, List.find?]
    cases b1 <;> cases b2 <;> simp [ih, firstSuccessName]

/-- C1 counterexample: for a word-processing input whose direct cascade
fails while the Repair Engine would produce a copy that Word COM
converts, the code returns failure `"none"` — `convert_docx_to_pdf` has
no repair tier — whereas the claim's two-tier contract returns success
labelled `"Word COM (repaired)"`. -/
theorem convert_docx_no_repair_tier :
    convert_docx_to_pdf envC1 0 = (false, strL "none")
    ∧ convert_docx_to_pdf_claim envC1 0 = (true, strL "Word COM (repaired)")
    ∧ convert_docx_to_pdf envC1 0 ≠ convert_docx_to_pdf_claim envC1 0 := by
  decide

/-- C1 (amended): `convert_pptx_to_pdf` runs PowerPoint COM, then
Aspose.Slides, then LibreOffice, returning success with the label of
the first attempt that both reports success and leaves a non-empty
output; if all direct attempts fail it invokes the Repair Engine
exactly once, retries the same cascade on a produced repaired copy and
returns `"<backend> (repaired)"` on its first success; otherwise it
fails with `"none"`.  `convert_docx_to_pdf` runs Word COM then
LibreOffice the same way but has no repair tier: when the direct
cascade fails it returns `"none"` immediately. -/
theorem convert_cascades_spec (env : ConvEnv) (doc : Nat) :
    convert_pptx_to_pdf env doc
      = (match firstSuccessName
            [(strL "PowerPoint COM", env.powerpoint doc),
             (strL "Aspose.Slides", env.aspose doc),
             (strL "LibreOffice", env.libre doc)] with
         | some name => (true, name)
         | none =>
           match (attempt_repair env.renv doc).repairedIdx with
           | some i =>
             (match firstSuccessName
                 [(strL "PowerPoint COM", env.powerpoint (env.repairedDoc doc i)),
                  (strL "Aspose.Slides", env.aspose (env.repairedDoc doc i)),
                  (strL "LibreOffice", env.libre (env.repairedDoc doc i))] with
              | some name => (true, name ++ strL " (repaired)")
              | none => (false, strL "none"))
           | none => (false, strL "none"))
    ∧ convert_docx_to_pdf env doc
      = (match firstSuccessName
            [(strL "Word COM", env.word doc), (strL "LibreOffice", env.libre doc)] with
         | some name => (true, name)
         | none => (false, strL "none")) := by
  constructor
  · simp only [convert_pptx_to_pdf, convert_pptx_to_pdf_full, pptxMethods,
      tryMethods_eq_find, List.map_cons, List.map_nil]
    cases hA : firstSuccessName
        [(strL "PowerPoint COM", env.powerpoint doc), (strL "Aspose.Slides", env.aspose doc),
         (strL "LibreOffice", env.libre doc)] with
    | some name => rfl
    | none =>
      cases hB : (attempt_repair env.renv doc).repairedIdx with
      | none => rfl
      | some i =>
        dsimp only
        cases hC : firstSuccessName
            [(strL "PowerPoint COM", env.powerpoint (env.repairedDoc doc i)),
             (strL "Aspose.Slides", env.aspose (env.repairedDoc doc i)),
             (strL "LibreOffice", env.libre (env.repairedDoc doc i))] with
        | some name => rfl
        | none => rfl
  · simp only [convert_docx_to_pdf, docxMethods, tryMethods_eq_find,
      List.map_cons, List.map_nil]

/-- C8 (code bug): when a repaired copy is produced, the scratch
directory is not removed before `convert_pptx_to_pdf` returns: the
cleanup is `repaired_path.parent.rmdir()` inside `try/except: pass`,
and `rmdir` cannot remove a directory that still contains the repaired
file, so the directory (with the repaired copy inside) survives —
whether the retried cascade succeeds (`envC8`) or fails (`envC1`). -/
theorem convert_pptx_scratch_left_behind :
    ((convert_pptx_to_pdf_full envC8 0).1 = (true, strL "PowerPoint COM (repaired)")
      ∧ (convert_pptx_to_pdf_full envC8 0).2 = some [(0, 5)])
    ∧ ((convert_pptx_to_pdf_full envC1 0).1 = (false, strL "none")
      ∧ (convert_pptx_to_pdf_full envC1 0).2 = some [(0, 5)]) := by
  decide

theorem processFile_failure (st : BatchStats) (fo : OfficeFile × ConvOutcome)
    (h : isFailureCase fo = true) :
    processFile st fo
      = { st with failed := st.failed + 1, failedFiles := st.failedFiles ++ [fo.1.name] } := by
  obtain ⟨⟨nm, ex⟩, oc⟩ := fo
  unfold isFailureCase at h
  unfold processFile
  by_cases hd : (⟨nm, ex⟩ : OfficeFile).ext ∈ pptxExts ∨ (⟨nm, ex⟩ : OfficeFile).ext ∈ docxExts
  · rw [if_pos hd]
    simp [hd] at h
    cases oc with
    | ok m => simp at h
    | failed => rfl
    | exn => rfl
  · rw [if_neg hd]

theorem processFile_ok (st : BatchStats) (fo : OfficeFile × ConvOutcome)
    (h : isFailureCase fo = false) :
    (processFile st fo).failed = st.failed
    ∧ (processFile st fo).failedFiles = st.failedFiles
    ∧ (processFile st fo).deletedFiles = st.deletedFiles ++ [fo.1.name]
    ∧ (processFile st fo).success + (processFile st fo).repaired
        = st.success + st.repaired + 1 := by
  obtain ⟨⟨nm, ex⟩, oc⟩ := fo
  unfold isFailureCase at h
  unfold processFile
  by_cases hd : (⟨nm, ex⟩ : OfficeFile).ext ∈ pptxExts ∨ (⟨nm, ex⟩ : OfficeFile).ext ∈ docxExts
  · rw [if_pos hd]
    simp [hd] at h
    cases oc with
    | ok m =>
      by_cases hm : containsSub (strL "repaired") m = true
      · simp [hm]
        omega
      · rw [Bool.not_eq_true] at hm
        simp [hm]
        omega
    | failed => simp at h
    | exn => simp at h
  · simp [hd] at h

theorem filter_partition_length (p : α → Bool) : ∀ l : List α,
    (l.filter p).length + (l.filter (fun x => !(p x))).length = l.length := by
  intro l
  induction l with
  | nil => rfl
  | cons x xs ih =>
    cases hx : p x <;> simp [List.filter_cons, hx] <;> omega

theorem batch_fold_spec : ∀ (files : List (OfficeFile × ConvOutcome)) (st : BatchStats),
    (files.foldl processFile st).failedFiles
      = st.failedFiles ++ (files.filter isFailureCase).map (fun fo => fo.1.name)
    ∧ (files.foldl processFile st).deletedFiles
      = st.deletedFiles ++ (files.filter (fun fo => !(isFailureCase fo))).map (fun fo => fo.1.name)
    ∧ (files.foldl processFile st).success + (files.foldl processFile st).repaired
        + (files.foldl processFile st).failed
      = st.success + st.repaired + st.failed + files.length
    ∧ (files.foldl processFile st).failedFiles.length + st.failed
      = st.failedFiles.length + (files.foldl processFile st).failed := by
  intro files
  induction files with
  | nil => intro st; simp
  | cons fo fs ih =>
    intro st
    simp only [List.foldl_cons, List.filter_cons, List.length_cons]
    cases hcase : isFailureCase fo with
    | true =>
      rw [processFile_failure st fo hcase]
      have ih' := ih { st with failed := st.failed + 1, failedFiles := st.failedFiles ++ [fo.1.name] }
      rcases ih' with ⟨h1, h2, h3, h4⟩
      have e1 : ({ st with failed := st.failed + 1, failedFiles := st.failedFiles ++ [fo.1.name] } : BatchStats).success = st.success := rfl
      have e2 : ({ st with failed := st.failed + 1, failedFiles := st.failedFiles ++ [fo.1.name] } : BatchStats).repaired = st.repaired := rfl
      have e3 : ({ st with failed := st.failed + 1, failedFiles := st.failedFiles ++ [fo.1.name] } : BatchStats).failed = st.failed + 1 := rfl
      have e4 : ({ st with failed := st.failed + 1, failedFiles := st.failedFiles ++ [fo.1.name] } : BatchStats).failedFiles = st.failedFiles ++ [fo.1.name] := rfl
      have e5 : ({ st with failed := st.failed + 1, failedFiles := st.failedFiles ++ [fo.1.name] } : BatchStats).deletedFiles = st.deletedFiles := rfl
      refine ⟨?_, ?_, ?_, ?_⟩
      · rw [h1, e4]; simp [hcase]
      · rw [h2, e5]; simp [hcase]
      · rw [e1, e2, e3] at h3; omega
      · rw [e3, e4] at h4
        have hl : (st.failedFiles ++ [fo.1.name]).length = st.failedFiles.length + 1 := by simp
        omega
    | false =>
      rcases processFile_ok st fo hcase with ⟨p1, p2, p3, p4⟩
      rcases ih (processFile st fo) with ⟨h1, h2, h3, h4⟩
      refine ⟨?_, ?_, ?_, ?_⟩
      · rw [h1, p2]; simp [hcase]
      · rw [h2, p3]; simp [hcase]
      · omega
      · rw [p1, p2] at h4; exact h4

/-- C7: the batch never aborts on a single file: every discovered file
is processed, a file whose conversion fails (returns false, raises, or
has an undispatched extension) has its name recorded in the
failed-files list while processing continues, and a source file is
deleted exactly when its conversion succeeded — the failure and
deletion lists partition the discovered files. -/
theorem convert_office_continue_on_failure (files : List (OfficeFile × ConvOutcome)) :
    (convert_office_to_pdf files).failedFiles
      = (files.filter isFailureCase).map (fun fo => fo.1.name)
    ∧ (convert_office_to_pdf files).deletedFiles
      = (files.filter (fun fo => !(isFailureCase fo))).map (fun fo => fo.1.name)
    ∧ (files.filter isFailureCase).length
        + (files.filter (fun fo => !(isFailureCase fo))).length
      = files.length := by
  have h := batch_fold_spec files initStats
  exact ⟨by simpa [convert_office_to_pdf, initStats] using h.1,
         by simpa [convert_office_to_pdf, initStats] using h.2.1,
         filter_partition_length isFailureCase files⟩

/-- C10: after a batch run the counters partition the work:
success + repaired + failed equals the number of discovered files
(every file, including those whose conversion raised, lands in exactly
one bucket), and the failed-files list has length equal to the failed
counter. -/
theorem convert_office_stats_partition (files : List (OfficeFile × ConvOutcome)) :
    (convert_office_to_pdf files).success + (convert_office_to_pdf files).repaired
        + (convert_office_to_pdf files).failed = files.length
    ∧ (convert_office_to_pdf files).failedFiles.length
      = (convert_office_to_pdf files).failed := by
  have h := batch_fold_spec files initStats
  constructor
  · have h3 := h.2.2.1
    simp only [convert_office_to_pdf]
    have e1 : initStats.success = 0 := rfl
    have e2 : initStats.repaired = 0 := rfl
    have e3 : initStats.failed = 0 := rfl
    rw [e1, e2, e3] at h3
    omega
  · have h4 := h.2.2.2
    simp only [convert_office_to_pdf]
    have e3 : initStats.failed = 0 := rfl
    have e4 : initStats.failedFiles = ([] : List (List Nat)) := rfl
    rw [e3, e4] at h4
    simp at h4
    omega
